import Mathlib

/-!
PDAL: command resolution, the scripting boundary and `adl_move_swap`

A shallow embedding of

* `apps/pdal.cpp` (`splitDriverName` and the kernel resolution of `main`),
* `include/pdal/drivers/nitf/Writer.hpp` (the declared stage name),
* `src/plang/Invocation.cpp` (`getPythonDataType`, `insertArgument`,
  `extractResult`, `hasOutputVariable`, `execute`),
* `vendor/pdalboost/boost/move/adl_move_swap.hpp` (`swap_proxy`, `adl_move_swap`),

followed by the properties established about them.

Conventions.  A `std::string` is a Lean `String`; a raw byte is a `Nat`; a
`boost::uint32_t` argument is a `Nat`.  A C++ call that can end in other ways
than by returning is given the result type `Outcome`.
-/

namespace PDAL

/-! ## Strings: `Utils::split2`, `boost::iequals`, `splitDriverName` -/

/-- Scanner behind `split2`: `cur` is the token being read, in reverse. A
token is emitted at each separator and at the end of the input, unless it is
empty. -/
def split2Aux (sep : Char) : List Char → List Char → List String
  | cur, [] => if cur = [] then [] else [String.mk cur.reverse]
  | cur, c :: cs =>
    if c = sep then
      if cur = [] then split2Aux sep [] cs
      else String.mk cur.reverse :: split2Aux sep [] cs
    else split2Aux sep (c :: cur) cs

/-- Modelled from the spec: `Utils::split2` is declared in a header that is
not among the source files. It splits `s` on the separator and discards the
empty tokens. -/
def Utils.split2 (s : String) (sep : Char) : List String :=
  split2Aux sep [] s.data

/-- `splitDriverName` of `apps/pdal.cpp`: `out` starts empty and receives
`names[1]` when the split has exactly two parts. -/
def splitDriverName (name : String) : String :=
  let out := ""
  let names := Utils.split2 name '.'
  if names.length = 2 then names.getD 1 out else out

/-- Element comparison of `boost::iequals` (`is_iequal`): both characters are
upper-cased, in the classic locale, and compared. -/
def is_iequal (a b : Char) : Bool :=
  a.toUpper == b.toUpper

/-- `boost::algorithm::equals` with the `is_iequal` comparison: the two
ranges are walked together and must end together. -/
def iequalsAux : List Char → List Char → Bool
  | [], [] => true
  | a :: as, b :: bs => is_iequal a b && iequalsAux as bs
  | _, _ => false

/-- `boost::iequals`. -/
def iequals (input test : String) : Bool :=
  iequalsAux input.data test.data

/-! ## `main`: resolution of the command -/

/-- The variables `main` sets while it resolves the command.
`pluginsLoaded` records whether `KernelFactory f(false)` was constructed,
that is whether dynamic discovery was performed. -/
structure Resolution where
  isValidKernel : Bool
  fullname : String
  pluginsLoaded : Bool
  deriving DecidableEq

/-- The loop `for (auto name : loaded_kernels)` of `main`: the first name whose
short form is `argv[1]` up to case is stored and the loop is left. -/
def kernelLoop (argv1 : String) : List String → Resolution → Resolution
  | [], st => st
  | name :: rest, st =>
    if iequals argv1 (splitDriverName name) then
      { st with fullname := name, isValidKernel := true }
    else kernelLoop argv1 rest st

/-- Lines 227-262 of `apps/pdal.cpp`. `staticNames` is what
`PluginManager::names(PF_PluginType_Kernel)` returns after `KernelFactory
f(true)`, `dynamicNames` what it returns after `KernelFactory f(false)`. -/
def resolveCommand (staticNames dynamicNames : List String) (argv1 : String) :
    Resolution :=
  let st := kernelLoop argv1 staticNames
    { isValidKernel := false, fullname := "", pluginsLoaded := false }
  if !st.isValidKernel then
    kernelLoop argv1 dynamicNames { st with pluginsLoaded := true }
  else st

/-! ## `drivers/nitf/Writer.hpp` -/

/-- The first argument of `SET_STAGE_NAME` in `drivers/nitf/Writer.hpp`. -/
def nitfWriterStageName : String := "drivers.nitf.writer"

/-! ## `plang/Invocation.cpp` -/

/-- How a C++ call ends: it returns a value, it throws `python_error`, an
`assert` stops the process, or it runs into undefined behaviour (a null or
wild pointer is dereferenced, storage is read or written out of bounds). -/
inductive Outcome (α : Type) where
  | ok (a : α)
  | raised (what : String)
  | assertFailed
  | undefined
  deriving DecidableEq

/-- Sequencing of calls: the continuation runs only after a normal return. -/
def Outcome.bind {α β : Type} : Outcome α → (α → Outcome β) → Outcome β
  | .ok a, k => k a
  | .raised what, _ => .raised what
  | .assertFailed, _ => .assertFailed
  | .undefined, _ => .undefined

/-- The C `assert`: compiled out when `NDEBUG` is defined (`ndebug = true`),
otherwise a false condition stops the process. -/
def cassert {α : Type} (ndebug cond : Bool) (k : Outcome α) : Outcome α :=
  if ndebug || cond then k else .assertFailed

/-- The enumerators of `dimension::Interpretation` that the switch of
`getPythonDataType` names (the declaration itself is in a header that is not
among the source files). -/
inductive dimension.Interpretation where
  | SignedByte
  | UnsignedByte
  | Float
  | SignedInteger
  | UnsignedInteger
  deriving DecidableEq

/-! NumPy's type numbers (`NPY_TYPES`). -/

def PyArray_BYTE : Int := 1
def PyArray_UBYTE : Int := 2
def PyArray_INT : Int := 5
def PyArray_UINT : Int := 6
def PyArray_LONGLONG : Int := 9
def PyArray_ULONGLONG : Int := 10
def PyArray_FLOAT : Int := 11
def PyArray_DOUBLE : Int := 12

/-- A one-dimensional NumPy array (`nd = 1`, as the arrays of `insertArgument`
are): its type number, its length `dimensions[0]`, its stride `strides[0]` in
bytes and its storage, byte by byte, from the data pointer on. Element `i` of
the array starts at offset `i * strides` of the storage; the array is
contiguous when `strides` is the size of its elements. -/
structure PyArrayObject where
  typenum : Int
  dimension : Nat
  strides : Nat
  data : List Nat
  deriving DecidableEq

/-- The `w` bytes at `PyArray_GetPtr(arr, &i)`, that is element `i` of an
array whose elements have `w` bytes. -/
def PyArrayObject.element (arr : PyArrayObject) (i w : Nat) : List Nat :=
  (arr.data.drop (i * arr.strides)).take w

/-- The Python objects that matter at the boundary. `other` stands for every
object that is neither a boolean nor an array. -/
inductive PyObject where
  | Py_True
  | Py_False
  | ndarray (arr : PyArrayObject)
  | other (id : Nat)
  deriving DecidableEq

/-- `PyBool_Check`. -/
def PyBool_Check : PyObject → Bool
  | .Py_True => true
  | .Py_False => true
  | _ => false

/-- `PyArray_Check` on a possibly null pointer, as `extractResult` calls it. -/
def PyArray_Check : Option PyObject → Bool
  | some (.ndarray _) => true
  | _ => false

/-- `PyDict_GetItemString`: the object stored under the key, `none` for the
null pointer it returns when the key is absent. -/
def PyDict_GetItemString (dict : List (String × PyObject)) (key : String) :
    Option PyObject :=
  dict.lookup key

/-- The members of `Invocation` that `execute`, `extractResult` and
`hasOutputVariable` read: whether `m_compile` is non-null, and the
dictionary `m_varsOut`. -/
structure Invocation where
  m_compile : Bool
  m_varsOut : List (String × PyObject)

/-- `Invocation::getPythonDataType`. Every path that leaves the two switches
without a `return` reaches `assert(0); return -1;`. -/
def getPythonDataType (ndebug : Bool) (datatype : dimension.Interpretation) (siz : Nat) :
    Outcome Int :=
  match datatype, siz with
  | .SignedByte, 1 => .ok PyArray_BYTE
  | .UnsignedByte, 1 => .ok PyArray_UBYTE
  | .Float, 4 => .ok PyArray_FLOAT
  | .Float, 8 => .ok PyArray_DOUBLE
  | .SignedInteger, 4 => .ok PyArray_INT
  | .SignedInteger, 8 => .ok PyArray_LONGLONG
  | .UnsignedInteger, 4 => .ok PyArray_UINT
  | .UnsignedInteger, 8 => .ok PyArray_ULONGLONG
  | _, _ => cassert ndebug false (.ok (-1))

/-- Storing the bytes `bs` at offset `p` of `dst`. -/
def writeBytes (dst : List Nat) (p : Nat) (bs : List Nat) : List Nat :=
  dst.take p ++ bs ++ dst.drop (p + bs.length)

/-- The loop `for (i = 0; i < data_len; i++) { *(T*)p = src[i]; p += data_stride; }`
for an element type `T` of `w` bytes. The first argument counts the
iterations left, `i` is the loop index and `p` the offset of the write
pointer in `dst`. It is undefined behaviour to read past the storage of the
array or to write past the last byte of `dst`. -/
def copyLoop (w data_stride : Nat) (src : List Nat) :
    Nat → Nat → Nat → List Nat → Outcome (List Nat)
  | 0, _, _, dst => .ok dst
  | k + 1, i, p, dst =>
    if (i + 1) * w ≤ src.length ∧ p + w ≤ dst.length then
      copyLoop w data_stride src k (i + 1) (p + data_stride)
        (writeBytes dst p ((src.drop (i * w)).take w))
    else .undefined

/-- One branch of `extractResult`: `src = (T*)PyArray_GetPtr(arr, &one)`
followed by the copy loop. With `one = 0` the pointer is the data pointer of
the array whatever its stride, and the loop then reads `src[i]` at offset
`i * w` of the storage: `strides` is not read. `PyArray_GetPtr` dereferences
`arr`, so a null pointer or an object that is no array is undefined
behaviour. -/
def copyBranch (xarr : Option PyObject) (w : Nat) (dst : List Nat)
    (data_len data_stride : Nat) : Outcome (List Nat) :=
  match xarr with
  | some (.ndarray arr) => copyLoop w data_stride arr.data data_len 0 0 dst
  | _ => .undefined

/-- `Invocation::extractResult`. The result is the content of the buffer that
starts at `dst` once the call has returned. The storage of the array is
disjoint from that buffer here; `extractResultInPlace` below is the same
function when the array is a view of the buffer itself. -/
def extractResult (ndebug : Bool) (self : Invocation) (name : String) (dst : List Nat)
    (data_len data_stride : Nat) (dataType : dimension.Interpretation) (numBytes : Nat) :
    Outcome (List Nat) :=
  let xarr := PyDict_GetItemString self.m_varsOut name
  cassert ndebug xarr.isSome <|
  cassert ndebug (PyArray_Check xarr) <|
  (getPythonDataType ndebug dataType numBytes).bind fun pyDataType =>
  if pyDataType = PyArray_DOUBLE then copyBranch xarr 8 dst data_len data_stride
  else if pyDataType = PyArray_FLOAT then copyBranch xarr 4 dst data_len data_stride
  else if pyDataType = PyArray_BYTE then copyBranch xarr 1 dst data_len data_stride
  else if pyDataType = PyArray_UBYTE then copyBranch xarr 1 dst data_len data_stride
  else if pyDataType = PyArray_INT then copyBranch xarr 4 dst data_len data_stride
  else if pyDataType = PyArray_UINT then copyBranch xarr 4 dst data_len data_stride
  else if pyDataType = PyArray_LONGLONG then copyBranch xarr 8 dst data_len data_stride
  else if pyDataType = PyArray_ULONGLONG then copyBranch xarr 8 dst data_len data_stride
  else cassert ndebug false (.ok dst)

/-- `Invocation::hasOutputVariable`. -/
def hasOutputVariable (self : Invocation) (name : String) : Bool :=
  (PyDict_GetItemString self.m_varsOut name).isSome

/-- `Invocation::execute`. `callResult` is what `PyObject_CallObject(m_func,
m_scriptArgs)` returns (`none` for a null pointer) and `handleError` is how
`m_env.handleError()` ends; should it return, `PyBool_Check` dereferences the
null pointer. -/
def execute (self : Invocation) (callResult : Option PyObject)
    (handleError : Outcome Unit) : Outcome Bool :=
  if !self.m_compile then .raised "no code has been compiled"
  else
    let m_scriptResult := callResult
    match m_scriptResult with
    | none => handleError.bind fun _ => .undefined
    | some r =>
      if !PyBool_Check r then
        .raised "user function return value not a boolean type"
      else
        let sts := false
        if r = PyObject.Py_True then .ok true else .ok sts

/-- The branches of `extractResult` in the order of the source: the type
number each one tests and the size of the element type its loop copies
(`double`, `float`, `int8_t`, `uint8_t`, `int32_t`, `uint32_t`, `int64_t`,
`uint64_t`). -/
def extractBranches : List (Int × Nat) :=
  [(PyArray_DOUBLE, 8), (PyArray_FLOAT, 4), (PyArray_BYTE, 1), (PyArray_UBYTE, 1),
   (PyArray_INT, 4), (PyArray_UINT, 4), (PyArray_LONGLONG, 8), (PyArray_ULONGLONG, 8)]

/-- The array that `insertArgument` builds with `PyArray_New(&PyArray_Type,
nd, dims, pyDataType, strides, data, 0, flags, NULL)`: its type number, its
length and its stride. It owns no storage: its data pointer is the `data`
argument, the first byte of the caller's buffer. -/
structure InputArray where
  typenum : Int
  dimension : Nat
  stride : Nat
  deriving DecidableEq

/-- `Invocation::insertArgument`: the array over the caller's buffer is stored
in `m_varsIn` under the name. The result is the new `m_varsIn`. -/
def insertArgument (ndebug : Bool) (m_varsIn : List (String × InputArray)) (name : String)
    (data_len data_stride : Nat) (dataType : dimension.Interpretation) (numBytes : Nat) :
    Outcome (List (String × InputArray)) :=
  (getPythonDataType ndebug dataType numBytes).bind fun pyDataType =>
  let pyArray : InputArray :=
    { typenum := pyDataType, dimension := data_len, stride := data_stride }
  .ok ((name, pyArray) :: m_varsIn)

/-- The copy loop of `extractResult` when `src` and `dst` both point to the
first byte of the same buffer `mem`: `src[i]` is read from `mem` as the
earlier iterations left it. -/
def copyLoopInPlace (w data_stride : Nat) :
    Nat → Nat → Nat → List Nat → Outcome (List Nat)
  | 0, _, _, mem => .ok mem
  | k + 1, i, p, mem =>
    if (i + 1) * w ≤ mem.length ∧ p + w ≤ mem.length then
      copyLoopInPlace w data_stride k (i + 1) (p + data_stride)
        (writeBytes mem p ((mem.drop (i * w)).take w))
    else .undefined

/-- One branch of `extractResult` on an array made by `insertArgument`:
`PyArray_GetPtr(arr, &one)`, with `one = 0`, is the data pointer of the array,
that is the first byte of the buffer. -/
def copyBranchInPlace (xarr : Option InputArray) (w : Nat) (mem : List Nat)
    (data_len data_stride : Nat) : Outcome (List Nat) :=
  match xarr with
  | some _ => copyLoopInPlace w data_stride data_len 0 0 mem
  | none => .undefined

/-- `Invocation::extractResult` when the objects of `m_varsOut` are arrays
made by `insertArgument` over the buffer `mem`, and `dst` is the first byte of
`mem` as well. `PyArray_Check` holds of every such array. The result is the
content of the buffer after the call. -/
def extractResultInPlace (ndebug : Bool) (m_varsOut : List (String × InputArray))
    (name : String) (mem : List Nat) (data_len data_stride : Nat)
    (dataType : dimension.Interpretation) (numBytes : Nat) : Outcome (List Nat) :=
  let xarr := m_varsOut.lookup name
  cassert ndebug xarr.isSome <|
  cassert ndebug true <|
  (getPythonDataType ndebug dataType numBytes).bind fun pyDataType =>
  if pyDataType = PyArray_DOUBLE then copyBranchInPlace xarr 8 mem data_len data_stride
  else if pyDataType = PyArray_FLOAT then copyBranchInPlace xarr 4 mem data_len data_stride
  else if pyDataType = PyArray_BYTE then copyBranchInPlace xarr 1 mem data_len data_stride
  else if pyDataType = PyArray_UBYTE then copyBranchInPlace xarr 1 mem data_len data_stride
  else if pyDataType = PyArray_INT then copyBranchInPlace xarr 4 mem data_len data_stride
  else if pyDataType = PyArray_UINT then copyBranchInPlace xarr 4 mem data_len data_stride
  else if pyDataType = PyArray_LONGLONG then
    copyBranchInPlace xarr 8 mem data_len data_stride
  else if pyDataType = PyArray_ULONGLONG then
    copyBranchInPlace xarr 8 mem data_len data_stride
  else cassert ndebug false (.ok mem)

/-- The round trip through the scripting boundary: `insertArgument` registers
the buffer `data` under the name, the script stores the very array it received
under the same name in its output dictionary, and `extractResult` is called
with the arguments of `insertArgument`. -/
def roundTrip (ndebug : Bool) (name : String) (data : List Nat)
    (data_len data_stride : Nat) (dataType : dimension.Interpretation) (numBytes : Nat) :
    Outcome (List Nat) :=
  (insertArgument ndebug [] name data_len data_stride dataType numBytes).bind fun m_varsIn =>
  let m_varsOut : List (String × InputArray) :=
    match m_varsIn.lookup name with
    | some arr => [(name, arr)]
    | none => []
  extractResultInPlace ndebug m_varsOut name data data_len data_stride dataType numBytes

/-! ## `boost/move/adl_move_swap.hpp` -/

/-- `swap_proxy` on two distinct objects: `T t(move(x)); x = move(y);
y = move(t);`, which is also what `std::swap` does. The result is the pair of
the new values of `x` and `y`. -/
def swap_proxy {α : Type} (x y : α) : α × α :=
  let t := x
  let x := y
  let y := t
  (x, y)

/-- The loop of the array overload of `swap_proxy`:
`for (i = 0; i < N; ++i) swap_proxy(x[i], y[i]);`. The first argument counts
the iterations left. -/
def swap_proxy_loop {α : Type} : Nat → Nat → List α → List α → List α × List α
  | 0, _, x, y => (x, y)
  | k + 1, i, x, y =>
    match x[i]?, y[i]? with
    | some a, some b =>
      swap_proxy_loop k (i + 1) (x.set i (swap_proxy a b).1) (y.set i (swap_proxy a b).2)
    | _, _ => swap_proxy_loop k (i + 1) x y

/-- `swap_proxy(T (&x)[N], T (&y)[N])`. -/
def swap_proxy_array {α : Type} (N : Nat) (x y : List α) : List α × List α :=
  swap_proxy_loop N 0 x y

/-- `adl_move_swap(x, y)` on two objects. -/
def adl_move_swap {α : Type} (x y : α) : α × α :=
  swap_proxy x y

/-- `adl_move_swap(x, y)` on two arrays of `N` elements: overload resolution
selects the array overload of `swap_proxy`. -/
def adl_move_swap_array {α : Type} (N : Nat) (x y : List α) : List α × List α :=
  swap_proxy_array N x y

/-! ## Lemmas on the string functions -/

theorem split2Aux_nosep (sep : Char) (a : List Char) :
    ∀ cur : List Char, sep ∉ a →
      split2Aux sep cur a
        = if cur.reverse ++ a = [] then [] else [String.mk (cur.reverse ++ a)] := by
  induction a with
  | nil => intro cur _; simp [split2Aux]
  | cons c cs ih =>
    intro cur h
    have hc : c ≠ sep := fun e => h (by simp [e])
    have hcs : sep ∉ cs := fun e => h (by simp [e])
    simp [split2Aux, hc, ih (c :: cur) hcs]

theorem split2Aux_sep (sep : Char) (a b : List Char) :
    ∀ cur : List Char, sep ∉ a →
      split2Aux sep cur (a ++ sep :: b)
        = if cur.reverse ++ a = [] then split2Aux sep [] b
          else String.mk (cur.reverse ++ a) :: split2Aux sep [] b := by
  induction a with
  | nil => intro cur _; simp [split2Aux]
  | cons c cs ih =>
    intro cur h
    have hc : c ≠ sep := fun e => h (by simp [e])
    have hcs : sep ∉ cs := fun e => h (by simp [e])
    simp [split2Aux, hc, ih (c :: cur) hcs]

theorem split2Aux_tokens (sep : Char) (s : List Char) :
    ∀ cur : List Char, sep ∉ cur →
      ∀ t ∈ split2Aux sep cur s, sep ∉ t.data := by
  induction s with
  | nil =>
    intro cur hcur t ht
    by_cases h : cur = []
    · simp [split2Aux, h] at ht
    · simp [split2Aux, h] at ht
      subst ht
      simpa using hcur
  | cons c cs ih =>
    intro cur hcur t ht
    by_cases hc : c = sep
    · by_cases h : cur = []
      · simp [split2Aux, hc, h] at ht
        exact ih [] (by simp) t ht
      · simp [split2Aux, hc, h] at ht
        rcases ht with ht | ht
        · subst ht
          simpa using hcur
        · exact ih [] (by simp) t ht
    · simp [split2Aux, hc] at ht
      refine ih (c :: cur) ?_ t ht
      intro hmem
      rcases List.mem_cons.1 hmem with e | e
      · exact hc e.symm
      · exact hcur e

/-- The short form never contains a dot. -/
theorem splitDriverName_no_dot (name : String) : '.' ∉ (splitDriverName name).data := by
  unfold splitDriverName
  simp only
  split
  · rename_i h
    have hlt : 1 < (Utils.split2 name '.').length := by omega
    have hmem : (Utils.split2 name '.').getD 1 "" ∈ Utils.split2 name '.' := by
      rw [List.getD_eq_getElem _ _ hlt]
      exact List.getElem_mem _
    exact split2Aux_tokens '.' name.data [] (by simp) _ hmem
  · simp

theorem splitDriverName_two_parts (cat ident : String)
    (hcat : cat ≠ "") (hid : ident ≠ "")
    (hcd : '.' ∉ cat.data) (hidd : '.' ∉ ident.data) :
    splitDriverName (cat ++ "." ++ ident) = ident := by
  have hc : cat.data ≠ [] := fun e => hcat (String.ext e)
  have hi : ident.data ≠ [] := fun e => hid (String.ext e)
  have hdata : (cat ++ "." ++ ident).data = cat.data ++ '.' :: ident.data := by
    simp [String.data_append]
  have hs : Utils.split2 (cat ++ "." ++ ident) '.' = [cat, ident] := by
    unfold Utils.split2
    rw [hdata, split2Aux_sep '.' _ _ [] hcd, split2Aux_nosep '.' _ [] hidd]
    simp [hc, hi]
  simp [splitDriverName, hs]

theorem toUpper_dot_aux : ∀ n, n < 123 → 97 ≤ n → Char.ofNat (n - 32) ≠ '.' := by
  decide

theorem toUpper_eq_dot (c : Char) (h : c.toUpper = '.') : c = '.' := by
  unfold Char.toUpper at h
  simp only [ge_iff_le] at h
  split at h
  · rename_i hc
    exact absurd h (toUpper_dot_aux _ (by omega) hc.1)
  · exact h

/-- What `boost::iequals` decides: the two strings agree once every character
is upper-cased. -/
theorem iequalsAux_iff (a : List Char) :
    ∀ b : List Char, iequalsAux a b = true ↔ a.map Char.toUpper = b.map Char.toUpper := by
  induction a with
  | nil => intro b; cases b <;> simp [iequalsAux]
  | cons x xs ih =>
    intro b
    cases b with
    | nil => simp [iequalsAux]
    | cons y ys => simp [iequalsAux, is_iequal, ih ys]

theorem iequals_iff (a b : String) :
    iequals a b = true ↔ a.data.map Char.toUpper = b.data.map Char.toUpper :=
  iequalsAux_iff a.data b.data

theorem iequals_refl (a : String) : iequals a a = true :=
  (iequals_iff a a).2 rfl

/-- A command that contains a dot is the short form of no name. -/
theorem iequals_dot_false (argv1 name : String) (h : '.' ∈ argv1.data) :
    iequals argv1 (splitDriverName name) = false := by
  cases hi : iequals argv1 (splitDriverName name) with
  | false => rfl
  | true =>
    exfalso
    have hm := (iequals_iff _ _).1 hi
    have h1 : Char.toUpper '.' ∈ argv1.data.map Char.toUpper := List.mem_map_of_mem _ h
    rw [hm] at h1
    obtain ⟨c, hc, hcu⟩ := List.mem_map.1 h1
    have hdot : Char.toUpper '.' = '.' := by decide
    rw [hdot] at hcu
    have := toUpper_eq_dot c hcu
    subst this
    exact splitDriverName_no_dot name hc

/-- The loop of `main` is a search for the first matching name. -/
theorem kernelLoop_eq_find (argv1 : String) (names : List String) (st : Resolution) :
    kernelLoop argv1 names st
      = match names.find? (fun n => iequals argv1 (splitDriverName n)) with
        | some n => { st with fullname := n, isValidKernel := true }
        | none => st := by
  induction names with
  | nil => rfl
  | cons n rest ih =>
    by_cases h : iequals argv1 (splitDriverName n) = true
    · simp [kernelLoop, h]
    · simp [kernelLoop, h, ih]

/-- Both passes of `main` as two searches. -/
theorem resolveCommand_eq_find (staticNames dynamicNames : List String) (argv1 : String) :
    resolveCommand staticNames dynamicNames argv1
      = match staticNames.find? (fun n => iequals argv1 (splitDriverName n)) with
        | some n => { isValidKernel := true, fullname := n, pluginsLoaded := false }
        | none =>
          match dynamicNames.find? (fun n => iequals argv1 (splitDriverName n)) with
          | some n => { isValidKernel := true, fullname := n, pluginsLoaded := true }
          | none => { isValidKernel := false, fullname := "", pluginsLoaded := true } := by
  unfold resolveCommand
  simp only [kernelLoop_eq_find]
  cases staticNames.find? (fun n => iequals argv1 (splitDriverName n)) with
  | some n => simp
  | none =>
    cases dynamicNames.find? (fun n => iequals argv1 (splitDriverName n)) <;> simp

/-- The outcome of the resolution read off one search through the names of
the static pass followed by those of the dynamic pass. -/
theorem resolveCommand_append (staticNames dynamicNames : List String) (argv1 : String) :
    (resolveCommand staticNames dynamicNames argv1).isValidKernel
        = ((staticNames ++ dynamicNames).find?
            (fun n => iequals argv1 (splitDriverName n))).isSome ∧
    (resolveCommand staticNames dynamicNames argv1).fullname
        = ((staticNames ++ dynamicNames).find?
            (fun n => iequals argv1 (splitDriverName n))).getD "" := by
  rw [resolveCommand_eq_find, List.find?_append]
  cases staticNames.find? (fun n => iequals argv1 (splitDriverName n)) with
  | some n => simp
  | none =>
    cases dynamicNames.find? (fun n => iequals argv1 (splitDriverName n)) <;> simp

/-! ## The claims on command resolution -/

/-- C1: if the short form of some kernel name equals `argv[1]` up to letter
case, the command is accepted as a valid kernel and the resolved full name is
the first name, in the order in which the names are consulted (static pass,
then dynamic pass), whose short form equals `argv[1]` up to letter case; if no
name of either pass matches, the command is not a valid kernel. -/
theorem resolveCommand_first_match (staticNames dynamicNames : List String)
    (argv1 : String) :
    ((∃ name ∈ staticNames ++ dynamicNames,
        argv1.data.map Char.toUpper = (splitDriverName name).data.map Char.toUpper) →
      (resolveCommand staticNames dynamicNames argv1).isValidKernel = true ∧
      ∃ pre post,
        staticNames ++ dynamicNames
          = pre ++ (resolveCommand staticNames dynamicNames argv1).fullname :: post ∧
        argv1.data.map Char.toUpper
          = (splitDriverName
              (resolveCommand staticNames dynamicNames argv1).fullname).data.map
                Char.toUpper ∧
        ∀ m ∈ pre,
          argv1.data.map Char.toUpper ≠ (splitDriverName m).data.map Char.toUpper) ∧
    ((∀ name ∈ staticNames ++ dynamicNames,
        argv1.data.map Char.toUpper ≠ (splitDriverName name).data.map Char.toUpper) →
      (resolveCommand staticNames dynamicNames argv1).isValidKernel = false) := by
  obtain ⟨hv, hf⟩ := resolveCommand_append staticNames dynamicNames argv1
  constructor
  · rintro ⟨name, hmem, hname⟩
    have hsome : ((staticNames ++ dynamicNames).find?
        (fun n => iequals argv1 (splitDriverName n))).isSome = true :=
      List.find?_isSome.2 ⟨name, hmem, (iequals_iff _ _).2 hname⟩
    obtain ⟨n, hn⟩ := Option.isSome_iff_exists.1 hsome
    rw [hn] at hv hf
    simp only [Option.isSome_some, Option.getD_some] at hv hf
    obtain ⟨hp, pre, post, hsplit, hpre⟩ := List.find?_eq_some.1 hn
    refine ⟨hv, pre, post, ?_, ?_, ?_⟩
    · rw [hf]; exact hsplit
    · rw [hf]; exact (iequals_iff _ _).1 hp
    · intro m hm hcontra
      have := hpre m hm
      rw [(iequals_iff _ _).2 hcontra] at this
      exact absurd this (by decide)
  · intro hall
    have hnone : (staticNames ++ dynamicNames).find?
        (fun n => iequals argv1 (splitDriverName n)) = none := by
      rw [List.find?_eq_none]
      intro x hx hcontra
      exact hall x hx ((iequals_iff _ _).1 hcontra)
    rw [hnone] at hv
    simpa using hv

/-- Witness of C1: `Info` resolves to `kernels.info`, and `nope` to nothing. -/
theorem resolveCommand_first_match_witness :
    ((resolveCommand ["kernels.delta", "kernels.info"] ["kernels.INFO"] "Info").isValidKernel
        = true ∧
      ∃ pre post,
        ["kernels.delta", "kernels.info"] ++ ["kernels.INFO"]
          = pre ++ (resolveCommand ["kernels.delta", "kernels.info"] ["kernels.INFO"]
              "Info").fullname :: post ∧
        "Info".data.map Char.toUpper
          = (splitDriverName
              (resolveCommand ["kernels.delta", "kernels.info"] ["kernels.INFO"]
                "Info").fullname).data.map Char.toUpper ∧
        ∀ m ∈ pre,
          "Info".data.map Char.toUpper ≠ (splitDriverName m).data.map Char.toUpper) ∧
    (resolveCommand ["kernels.delta"] ["kernels.info"] "nope").isValidKernel = false :=
  ⟨(resolveCommand_first_match ["kernels.delta", "kernels.info"] ["kernels.INFO"] "Info").1
      ⟨"kernels.info", by decide, by decide⟩,
    (resolveCommand_first_match ["kernels.delta"] ["kernels.info"] "nope").2 (by decide)⟩

/-- C2, as stated, fails: with `kernels.info` registered, the short name
`info` resolves to it while the full name `kernels.info` resolves to nothing. -/
theorem resolveCommand_qualified_counterexample :
    ¬ ((resolveCommand ["kernels.info"] [] "kernels.info").isValidKernel
          = (resolveCommand ["kernels.info"] [] "info").isValidKernel ∧
        (resolveCommand ["kernels.info"] [] "kernels.info").fullname
          = (resolveCommand ["kernels.info"] [] "info").fullname) := by
  decide

/-- C2, amended: `main` compares `argv[1]` with short forms only. For every
registered kernel name `category.identifier` (both parts non-empty and free of
dots) the short name `identifier` is accepted and resolves to a kernel whose
short form is `identifier` up to letter case, whereas the full qualified name
`category.identifier` matches no kernel and is not a valid command. -/
theorem resolveCommand_qualified_name (staticNames dynamicNames : List String)
    (category identifier : String)
    (hcat : category ≠ "") (hid : identifier ≠ "")
    (hcd : '.' ∉ category.data) (hidd : '.' ∉ identifier.data)
    (hreg : category ++ "." ++ identifier ∈ staticNames ++ dynamicNames) :
    (resolveCommand staticNames dynamicNames identifier).isValidKernel = true ∧
    iequals identifier
      (splitDriverName (resolveCommand staticNames dynamicNames identifier).fullname)
        = true ∧
    (resolveCommand staticNames dynamicNames
      (category ++ "." ++ identifier)).isValidKernel = false := by
  refine ⟨?_, ?_, ?_⟩
  · rw [(resolveCommand_append staticNames dynamicNames identifier).1]
    refine List.find?_isSome.2 ⟨_, hreg, ?_⟩
    simp only [splitDriverName_two_parts category identifier hcat hid hcd hidd]
    exact iequals_refl identifier
  · have hsome : ((staticNames ++ dynamicNames).find?
        (fun n => iequals identifier (splitDriverName n))).isSome = true := by
      refine List.find?_isSome.2 ⟨_, hreg, ?_⟩
      simp only [splitDriverName_two_parts category identifier hcat hid hcd hidd]
      exact iequals_refl identifier
    obtain ⟨n, hn⟩ := Option.isSome_iff_exists.1 hsome
    rw [(resolveCommand_append staticNames dynamicNames identifier).2, hn]
    exact List.find?_some (p := fun n => iequals identifier (splitDriverName n)) hn
  · rw [(resolveCommand_append staticNames dynamicNames _).1]
    have hdot : '.' ∈ (category ++ "." ++ identifier).data := by
      simp [String.data_append]
    have hnone : (staticNames ++ dynamicNames).find?
        (fun n => iequals (category ++ "." ++ identifier) (splitDriverName n)) = none := by
      rw [List.find?_eq_none]
      intro x _
      simp [iequals_dot_false _ x hdot]
    rw [hnone]
    rfl

/-- Witness of the amended C2 with `kernels.info` registered by a plugin. -/
theorem resolveCommand_qualified_name_witness :
    (resolveCommand ["kernels.delta"] ["kernels.info"] "info").isValidKernel = true ∧
    iequals "info"
      (splitDriverName (resolveCommand ["kernels.delta"] ["kernels.info"] "info").fullname)
        = true ∧
    (resolveCommand ["kernels.delta"] ["kernels.info"]
      ("kernels" ++ "." ++ "info")).isValidKernel = false :=
  resolveCommand_qualified_name ["kernels.delta"] ["kernels.info"] "kernels" "info"
    (by decide) (by decide) (by decide) (by decide) (by decide)

/-- C3: for a name `category.identifier` made of two non-empty parts that
contain no dot, separated by one dot, `splitDriverName` returns the identifier
unchanged; for a name that `Utils::split2` does not cut into exactly two parts
it returns the empty string, which is the case of every name without a dot
and of every name of three or more parts. -/
theorem splitDriverName_spec :
    (∀ category identifier : String, category ≠ "" → identifier ≠ "" →
      '.' ∉ category.data → '.' ∉ identifier.data →
      splitDriverName (category ++ "." ++ identifier) = identifier) ∧
    (∀ name : String, (Utils.split2 name '.').length ≠ 2 → splitDriverName name = "") ∧
    (∀ name : String, '.' ∉ name.data → splitDriverName name = "") ∧
    (∀ name : String, 3 ≤ (Utils.split2 name '.').length → splitDriverName name = "") := by
  refine ⟨splitDriverName_two_parts, ?_, ?_, ?_⟩
  · intro name h
    simp [splitDriverName, h]
  · intro name h
    have hs : Utils.split2 name '.' = if name.data = [] then [] else [name] := by
      unfold Utils.split2
      rw [split2Aux_nosep '.' name.data [] h]
      simp
    have hlen : (Utils.split2 name '.').length ≠ 2 := by
      rw [hs]; split <;> simp
    simp [splitDriverName, hlen]
  · intro name h
    have hlen : (Utils.split2 name '.').length ≠ 2 := by omega
    simp [splitDriverName, hlen]

/-- Witness of C3 on `readers.las`, `pipeline` and `a.b.c`. -/
theorem splitDriverName_spec_witness :
    splitDriverName ("readers" ++ "." ++ "las") = "las" ∧
    splitDriverName "a.b.c" = "" ∧
    splitDriverName "pipeline" = "" ∧
    splitDriverName "a.b.c.d" = "" :=
  ⟨splitDriverName_spec.1 "readers" "las" (by decide) (by decide) (by decide) (by decide),
    splitDriverName_spec.2.1 "a.b.c" (by decide),
    splitDriverName_spec.2.2.1 "pipeline" (by decide),
    splitDriverName_spec.2.2.2 "a.b.c.d" (by decide)⟩

/-- C4, as stated, fails: the stage name declared by the NITF writer does not
split into exactly two parts with a non-empty short form. -/
theorem nitfWriterStageName_counterexample :
    ¬ ((Utils.split2 nitfWriterStageName '.').length = 2 ∧
        splitDriverName nitfWriterStageName ≠ "") := by
  decide

/-- C4, amended: the stage name declared by the NITF writer is the dotted
three-part name `drivers.nitf.writer`; splitting it on the dot yields the three
parts `drivers`, `nitf`, `writer`, and `splitDriverName`, which recovers a
short form from two-part names only, returns the empty string for it. -/
theorem nitfWriterStageName_three_parts :
    Utils.split2 nitfWriterStageName '.' = ["drivers", "nitf", "writer"] ∧
    (Utils.split2 nitfWriterStageName '.').length = 3 ∧
    splitDriverName nitfWriterStageName = "" := by
  decide

/-- C5: `main` resolves a command in two passes. If the static names hold a
name whose short form equals the command up to case, the result is the first
such name and dynamic discovery is not performed (so the dynamic names have no
influence); otherwise the result is the first such name among the dynamic
names; otherwise the command is not a kernel. In particular a command unknown
to the static pass and registered by a plugin is resolved. -/
theorem resolveCommand_two_passes (staticNames dynamicNames : List String) (c : String) :
    (∀ n, staticNames.find? (fun n => iequals c (splitDriverName n)) = some n →
      resolveCommand staticNames dynamicNames c
          = { isValidKernel := true, fullname := n, pluginsLoaded := false } ∧
      ∀ others, resolveCommand staticNames others c
          = resolveCommand staticNames dynamicNames c) ∧
    (staticNames.find? (fun n => iequals c (splitDriverName n)) = none →
      ∀ n, dynamicNames.find? (fun n => iequals c (splitDriverName n)) = some n →
        resolveCommand staticNames dynamicNames c
          = { isValidKernel := true, fullname := n, pluginsLoaded := true }) ∧
    (staticNames.find? (fun n => iequals c (splitDriverName n)) = none →
      dynamicNames.find? (fun n => iequals c (splitDriverName n)) = none →
        resolveCommand staticNames dynamicNames c
          = { isValidKernel := false, fullname := "", pluginsLoaded := true }) ∧
    ((∀ n ∈ staticNames, iequals c (splitDriverName n) = false) →
      (∃ n ∈ dynamicNames, iequals c (splitDriverName n) = true) →
        (resolveCommand staticNames dynamicNames c).isValidKernel = true ∧
        (resolveCommand staticNames dynamicNames c).fullname ∈ dynamicNames) := by
  refine ⟨?_, ?_, ?_, ?_⟩
  · intro n hn
    refine ⟨by rw [resolveCommand_eq_find, hn], fun others => ?_⟩
    rw [resolveCommand_eq_find, resolveCommand_eq_find, hn]
  · intro hs n hn
    rw [resolveCommand_eq_find, hs, hn]
  · intro hs hd
    rw [resolveCommand_eq_find, hs, hd]
  · intro hs hd
    have hnone : staticNames.find? (fun n => iequals c (splitDriverName n)) = none := by
      rw [List.find?_eq_none]
      intro x hx
      simp [hs x hx]
    have hsome : (dynamicNames.find? (fun n => iequals c (splitDriverName n))).isSome
        = true := List.find?_isSome.2 hd
    obtain ⟨n, hn⟩ := Option.isSome_iff_exists.1 hsome
    rw [resolveCommand_eq_find, hnone, hn]
    exact ⟨rfl, List.mem_of_find?_eq_some hn⟩

/-- Witness of C5: a static match, a plugin match and no match. -/
theorem resolveCommand_two_passes_witness :
    (resolveCommand ["kernels.info"] ["kernels.INFO"] "Info"
          = { isValidKernel := true, fullname := "kernels.info", pluginsLoaded := false } ∧
      ∀ others, resolveCommand ["kernels.info"] others "Info"
          = resolveCommand ["kernels.info"] ["kernels.INFO"] "Info") ∧
    resolveCommand ["kernels.info"] ["kernels.delta", "kernels.ground"] "GROUND"
        = { isValidKernel := true, fullname := "kernels.ground", pluginsLoaded := true } ∧
    resolveCommand ["kernels.info"] ["kernels.ground"] "missing"
        = { isValidKernel := false, fullname := "", pluginsLoaded := true } ∧
    ((resolveCommand ["kernels.info"] ["kernels.ground"] "ground").isValidKernel = true ∧
      (resolveCommand ["kernels.info"] ["kernels.ground"] "ground").fullname
        ∈ ["kernels.ground"]) :=
  ⟨(resolveCommand_two_passes ["kernels.info"] ["kernels.INFO"] "Info").1
      "kernels.info" (by decide),
    (resolveCommand_two_passes ["kernels.info"] ["kernels.delta", "kernels.ground"]
      "GROUND").2.1 (by decide) "kernels.ground" (by decide),
    (resolveCommand_two_passes ["kernels.info"] ["kernels.ground"] "missing").2.2.1
      (by decide) (by decide),
    (resolveCommand_two_passes ["kernels.info"] ["kernels.ground"] "ground").2.2.2
      (by decide) ⟨"kernels.ground", by decide, by decide⟩⟩

/-! ## Lemmas on `extractResult` -/

theorem cassert_ne_raised {α : Type} (ndebug cond : Bool) (k : Outcome α)
    (hk : ∀ what, k ≠ .raised what) : ∀ what, cassert ndebug cond k ≠ .raised what := by
  intro what
  unfold cassert
  split
  · exact hk what
  · simp

theorem copyLoop_ne_raised (w data_stride : Nat) (src : List Nat) :
    ∀ (k i p : Nat) (dst : List Nat) (what : String),
      copyLoop w data_stride src k i p dst ≠ .raised what := by
  intro k
  induction k with
  | zero => intro i p dst what; simp [copyLoop]
  | succ k ih =>
    intro i p dst what
    unfold copyLoop
    split
    · exact ih _ _ _ what
    · simp

theorem copyBranch_ne_raised (xarr : Option PyObject) (w : Nat) (dst : List Nat)
    (data_len data_stride : Nat) (what : String) :
    copyBranch xarr w dst data_len data_stride ≠ .raised what := by
  unfold copyBranch
  split
  · exact copyLoop_ne_raised _ _ _ _ _ _ _ what
  · simp

/-- `getPythonDataType` either returns, or stops at its `assert(0)`. -/
theorem getPythonDataType_cases (ndebug : Bool) (datatype : dimension.Interpretation)
    (siz : Nat) :
    (∃ code, getPythonDataType ndebug datatype siz = .ok code) ∨
      getPythonDataType ndebug datatype siz = .assertFailed := by
  unfold getPythonDataType
  split <;> first
    | exact Or.inl ⟨_, rfl⟩
    | (cases ndebug
       · exact Or.inr rfl
       · exact Or.inl ⟨_, rfl⟩)

/-- No path through `extractResult` throws. -/
theorem extractResult_ne_raised (ndebug : Bool) (self : Invocation) (name : String)
    (dst : List Nat) (data_len data_stride : Nat) (dataType : dimension.Interpretation)
    (numBytes : Nat) (what : String) :
    extractResult ndebug self name dst data_len data_stride dataType numBytes
      ≠ .raised what := by
  unfold extractResult
  simp only
  refine cassert_ne_raised _ _ _ (cassert_ne_raised _ _ _ ?_) what
  intro what
  rcases getPythonDataType_cases ndebug dataType numBytes with ⟨code, hc⟩ | hc
  · rw [hc]
    simp only [Outcome.bind]
    split_ifs <;> first
      | exact copyBranch_ne_raised _ _ _ _ _ what
      | exact cassert_ne_raised _ _ _ (by simp) what
  · rw [hc]
    simp [Outcome.bind]

theorem writeBytes_length (dst : List Nat) (p : Nat) (bs : List Nat)
    (h : p + bs.length ≤ dst.length) : (writeBytes dst p bs).length = dst.length := by
  unfold writeBytes
  simp only [List.length_append, List.length_take, List.length_drop]
  omega

/-- The copy loop runs to its end when the storage of the array holds the
elements it reads and the destination has room for the last write. -/
theorem copyLoop_ok (w data_stride : Nat) (src : List Nat) :
    ∀ (k i p : Nat) (dst : List Nat),
      (i + k) * w ≤ src.length →
      (k = 0 ∨ p + (k - 1) * data_stride + w ≤ dst.length) →
      ∃ out, copyLoop w data_stride src k i p dst = .ok out ∧ out.length = dst.length := by
  intro k
  induction k with
  | zero => intro i p dst _ _; exact ⟨dst, rfl, rfl⟩
  | succ k ih =>
    intro i p dst hsrc hdst
    have hroom : p + k * data_stride + w ≤ dst.length := by
      rcases hdst with h | h
      · omega
      · simpa using h
    have hk : k * data_stride ≥ 0 := Nat.zero_le _
    have hread : (i + 1) * w ≤ src.length := by
      have : (i + 1) * w ≤ (i + (k + 1)) * w := Nat.mul_le_mul_right w (by omega)
      omega
    have hwrite : p + w ≤ dst.length := by omega
    have hbs : ((src.drop (i * w)).take w).length = w := by
      rw [List.length_take, List.length_drop]
      have : (i + 1) * w = i * w + w := by ring
      omega
    have hlen : (writeBytes dst p ((src.drop (i * w)).take w)).length = dst.length :=
      writeBytes_length _ _ _ (by rw [hbs]; exact hwrite)
    obtain ⟨out, hout, houtlen⟩ := ih (i + 1) (p + data_stride)
      (writeBytes dst p ((src.drop (i * w)).take w))
      (by have : i + 1 + k = i + (k + 1) := by omega
          rw [this]; exact hsrc)
      (by
        cases k with
        | zero => exact Or.inl rfl
        | succ m =>
          right
          rw [hlen]
          have : (m + 1) * data_stride = m * data_stride + data_stride := by ring
          simp only [Nat.add_sub_cancel]
          omega)
    refine ⟨out, ?_, by rw [houtlen, hlen]⟩
    unfold copyLoop
    rw [if_pos ⟨hread, hwrite⟩]
    exact hout

/-- For a pair that `getPythonDataType` accepts, `extractResult` is the two
assertions followed by the copy of elements of `numBytes` bytes. -/
theorem extractResult_accepted (ndebug : Bool) (self : Invocation) (name : String)
    (dst : List Nat) (data_len data_stride : Nat) (dataType : dimension.Interpretation)
    (numBytes : Nat) (code : Int) (hne : code ≠ -1)
    (h : getPythonDataType ndebug dataType numBytes = .ok code) :
    extractResult ndebug self name dst data_len data_stride dataType numBytes
      = cassert ndebug (PyDict_GetItemString self.m_varsOut name).isSome
          (cassert ndebug (PyArray_Check (PyDict_GetItemString self.m_varsOut name))
            (copyBranch (PyDict_GetItemString self.m_varsOut name) numBytes dst
              data_len data_stride)) := by
  unfold extractResult
  simp only
  unfold getPythonDataType at h
  split at h
  all_goals first
    | (cases h; rfl)
    | (exfalso
       cases ndebug
       · simp [cassert] at h
       · simp only [cassert, Bool.or_false, if_true] at h
         cases h
         exact hne rfl)

/-! ## The claims on the scripting boundary -/

/-- C6, as stated, fails: for a name that is not a key of the empty output
dictionary `extractResult` raises nothing, with assertions compiled in
(`assert(xarr)` stops the process) as well as with assertions compiled out
(the null pointer is dereferenced). -/
theorem extractResult_missing_counterexample :
    hasOutputVariable ⟨true, []⟩ "X" = false ∧
    (¬ ∃ what, extractResult false ⟨true, []⟩ "X" [0, 0] 1 1 .UnsignedByte 1
        = .raised what) ∧
    (¬ ∃ what, extractResult true ⟨true, []⟩ "X" [0, 0] 1 1 .UnsignedByte 1
        = .raised what) := by
  refine ⟨by decide, ?_, ?_⟩
  · rintro ⟨what, h⟩
    have e : extractResult false ⟨true, []⟩ "X" [0, 0] 1 1 .UnsignedByte 1
        = .assertFailed := by decide
    rw [e] at h
    cases h
  · rintro ⟨what, h⟩
    have e : extractResult true ⟨true, []⟩ "X" [0, 0] 1 1 .UnsignedByte 1
        = .undefined := by decide
    rw [e] at h
    cases h

/-- C6, amended: that the name is a key of `m_varsOut` is a precondition of
`extractResult`, stated by `assert(xarr)`. For a name that is not a key,
`hasOutputVariable` returns false, and with assertions compiled in the call
stops at that assertion, before the copy loop writes to the destination; no
exception is raised. -/
theorem extractResult_missing_name (self : Invocation) (name : String)
    (dst : List Nat) (data_len data_stride : Nat) (dataType : dimension.Interpretation)
    (numBytes : Nat) (hkey : name ∉ self.m_varsOut.map Prod.fst) :
    hasOutputVariable self name = false ∧
    extractResult false self name dst data_len data_stride dataType numBytes
      = .assertFailed ∧
    (∀ ndebug what,
      extractResult ndebug self name dst data_len data_stride dataType numBytes
        ≠ .raised what) := by
  have hnone : PyDict_GetItemString self.m_varsOut name = none := by
    unfold PyDict_GetItemString
    rw [List.lookup_eq_none_iff]
    intro kv hkv
    rw [bne_iff_ne]
    intro hname
    exact hkey (List.mem_map.2 ⟨kv, hkv, hname.symm⟩)
  refine ⟨?_, ?_, fun ndebug what => extractResult_ne_raised _ _ _ _ _ _ _ _ what⟩
  · simp [hasOutputVariable, hnone]
  · simp [extractResult, hnone, cassert]

/-- Witness of the amended C6: the name `Y` in a dictionary that holds `X`. -/
theorem extractResult_missing_name_witness :
    hasOutputVariable ⟨true, [("X", .ndarray ⟨PyArray_UBYTE, 1, 1, [7]⟩)]⟩ "Y" = false ∧
    extractResult false ⟨true, [("X", .ndarray ⟨PyArray_UBYTE, 1, 1, [7]⟩)]⟩ "Y" [0, 0] 1 1
      .UnsignedByte 1 = .assertFailed ∧
    (∀ ndebug what,
      extractResult ndebug ⟨true, [("X", .ndarray ⟨PyArray_UBYTE, 1, 1, [7]⟩)]⟩ "Y" [0, 0] 1 1
        .UnsignedByte 1 ≠ .raised what) :=
  extractResult_missing_name ⟨true, [("X", .ndarray ⟨PyArray_UBYTE, 1, 1, [7]⟩)]⟩ "Y" [0, 0] 1 1
    .UnsignedByte 1 (by decide)

/-- C8, evaluated where it fails: for a signed or unsigned integer of two
bytes, and for `SignedInteger` or `UnsignedInteger` of one byte,
`getPythonDataType` reaches `assert(0); return -1;`: the assertion stops the
process when assertions are compiled in, and `-1` is returned otherwise. -/
theorem getPythonDataType_two_bytes :
    getPythonDataType false .SignedInteger 2 = .assertFailed ∧
    getPythonDataType true .SignedInteger 2 = .ok (-1) ∧
    getPythonDataType false .UnsignedInteger 2 = .assertFailed ∧
    getPythonDataType true .UnsignedInteger 2 = .ok (-1) ∧
    getPythonDataType false .SignedInteger 1 = .assertFailed ∧
    getPythonDataType true .UnsignedInteger 1 = .ok (-1) := by
  decide

/-- C9: once code is compiled and the call of the user function has returned
the object `r`, `execute` throws `python_error` exactly when `r` is no Python
boolean (and then with the message `user function return value not a boolean
type`); it returns true exactly when `r` is `Py_True` and false exactly when
`r` is `Py_False`. -/
theorem execute_boolean (self : Invocation) (r : PyObject) (handleError : Outcome Unit)
    (hcompiled : self.m_compile = true) :
    ((∃ what, execute self (some r) handleError = .raised what) ↔ PyBool_Check r = false) ∧
    (execute self (some r) handleError
        = .raised "user function return value not a boolean type"
      ↔ PyBool_Check r = false) ∧
    (execute self (some r) handleError = .ok true ↔ r = .Py_True) ∧
    (execute self (some r) handleError = .ok false ↔ r = .Py_False) := by
  cases r <;> simp [execute, hcompiled, PyBool_Check]

/-- Witness of C9: the function returned `Py_False`. -/
theorem execute_boolean_witness :
    ((∃ what, execute ⟨true, []⟩ (some .Py_False) (.raised "traceback") = .raised what)
      ↔ PyBool_Check .Py_False = false) ∧
    (execute ⟨true, []⟩ (some .Py_False) (.raised "traceback")
        = .raised "user function return value not a boolean type"
      ↔ PyBool_Check .Py_False = false) ∧
    (execute ⟨true, []⟩ (some .Py_False) (.raised "traceback") = .ok true
      ↔ PyObject.Py_False = .Py_True) ∧
    (execute ⟨true, []⟩ (some .Py_False) (.raised "traceback") = .ok false
      ↔ PyObject.Py_False = .Py_False) :=
  execute_boolean ⟨true, []⟩ .Py_False (.raised "traceback") rfl

/-! ## `adl_move_swap` -/

/-- State of the two arrays after `k` iterations of the loop of the array
overload, started at index `i`: the indices from `i` up to `i + k` are
exchanged and the others are as before. -/
theorem swap_proxy_loop_spec {α : Type} :
    ∀ (k i : Nat) (x y : List α), i + k ≤ x.length → i + k ≤ y.length →
      (swap_proxy_loop k i x y).1.length = x.length ∧
      (swap_proxy_loop k i x y).2.length = y.length ∧
      ∀ j,
        (swap_proxy_loop k i x y).1[j]? = (if i ≤ j ∧ j < i + k then y[j]? else x[j]?) ∧
        (swap_proxy_loop k i x y).2[j]? = (if i ≤ j ∧ j < i + k then x[j]? else y[j]?) := by
  intro k
  induction k with
  | zero =>
    intro i x y _ _
    refine ⟨rfl, rfl, fun j => ?_⟩
    have hn : ¬ (i ≤ j ∧ j < i + 0) := by omega
    simp only [swap_proxy_loop, if_neg hn]
    exact ⟨trivial, trivial⟩
  | succ k ih =>
    intro i x y hx hy
    have hxi : i < x.length := by omega
    have hyi : i < y.length := by omega
    have hstep : swap_proxy_loop (k + 1) i x y
        = swap_proxy_loop k (i + 1) (x.set i y[i]) (y.set i x[i]) := by
      simp [swap_proxy_loop, List.getElem?_eq_getElem hxi, List.getElem?_eq_getElem hyi,
        swap_proxy]
    obtain ⟨h1, h2, h3⟩ := ih (i + 1) (x.set i y[i]) (y.set i x[i])
      (by rw [List.length_set]; omega) (by rw [List.length_set]; omega)
    rw [hstep]
    refine ⟨by rw [h1, List.length_set], by rw [h2, List.length_set], fun j => ?_⟩
    rw [(h3 j).1, (h3 j).2]
    by_cases hij : i = j
    · subst hij
      have hn : ¬ (i + 1 ≤ i ∧ i < i + 1 + k) := by omega
      have hp : i ≤ i ∧ i < i + (k + 1) := by omega
      simp [hn, hp, List.getElem?_set, hxi, hyi, List.getElem?_eq_getElem]
    · have hiff : (i + 1 ≤ j ∧ j < i + 1 + k) ↔ (i ≤ j ∧ j < i + (k + 1)) := by omega
      simp only [hiff, List.getElem?_set_ne hij]
      exact ⟨trivial, trivial⟩

/-- C10: `adl_move_swap` exchanges the values of its arguments. After
`adl_move_swap(x, y)` on two objects `x` holds the old value of `y` and `y` the
old value of `x`. On two arrays of length `N` the same holds element by
element, so that each array ends as the other began; seen as the first `N`
cells of longer sequences, every index below `N` is exchanged and no index
from `N` on is touched. -/
theorem adl_move_swap_exchanges {α : Type} :
    (∀ x y : α, adl_move_swap x y = (y, x)) ∧
    (∀ (N : Nat) (x y : List α), x.length = N → y.length = N →
      adl_move_swap_array N x y = (y, x)) ∧
    (∀ (N : Nat) (x y : List α), N ≤ x.length → N ≤ y.length →
      (adl_move_swap_array N x y).1.length = x.length ∧
      (adl_move_swap_array N x y).2.length = y.length ∧
      ∀ i,
        (i < N →
          (adl_move_swap_array N x y).1[i]? = y[i]? ∧
          (adl_move_swap_array N x y).2[i]? = x[i]?) ∧
        (N ≤ i →
          (adl_move_swap_array N x y).1[i]? = x[i]? ∧
          (adl_move_swap_array N x y).2[i]? = y[i]?)) := by
  refine ⟨fun x y => rfl, ?_, ?_⟩
  · intro N x y hx hy
    obtain ⟨_, _, h⟩ := swap_proxy_loop_spec N 0 x y (by omega) (by omega)
    have e1 : (adl_move_swap_array N x y).1 = y := by
      apply List.ext_getElem?
      intro j
      have hj := (h j).1
      by_cases hlt : j < N
      · simpa [adl_move_swap_array, swap_proxy_array, hlt] using hj
      · have hnx : x[j]? = none := List.getElem?_eq_none (by omega)
        have hny : y[j]? = none := List.getElem?_eq_none (by omega)
        simpa [adl_move_swap_array, swap_proxy_array, hlt, hnx, hny] using hj
    have e2 : (adl_move_swap_array N x y).2 = x := by
      apply List.ext_getElem?
      intro j
      have hj := (h j).2
      by_cases hlt : j < N
      · simpa [adl_move_swap_array, swap_proxy_array, hlt] using hj
      · have hnx : x[j]? = none := List.getElem?_eq_none (by omega)
        have hny : y[j]? = none := List.getElem?_eq_none (by omega)
        simpa [adl_move_swap_array, swap_proxy_array, hlt, hnx, hny] using hj
    exact Prod.ext e1 e2
  · intro N x y hx hy
    obtain ⟨h1, h2, h⟩ := swap_proxy_loop_spec N 0 x y (by omega) (by omega)
    refine ⟨h1, h2, fun i => ⟨fun hi => ?_, fun hi => ?_⟩⟩
    · have hc : 0 ≤ i ∧ i < 0 + N := by omega
      have := h i
      simp only [hc, and_self, if_true] at this
      exact this
    · have hc : ¬ (0 ≤ i ∧ i < 0 + N) := by omega
      have := h i
      simp only [hc, if_false] at this
      exact this

/-- Witness of C10: two arrays of three elements, and the first two cells of
two sequences of three. -/
theorem adl_move_swap_exchanges_witness :
    adl_move_swap_array 3 [1, 2, 3] [4, 5, 6] = ([4, 5, 6], [1, 2, 3]) ∧
    ((adl_move_swap_array 2 [1, 2, 3] [4, 5, 6]).1[1]? = [4, 5, 6][1]? ∧
      (adl_move_swap_array 2 [1, 2, 3] [4, 5, 6]).2[1]? = [1, 2, 3][1]?) ∧
    ((adl_move_swap_array 2 [1, 2, 3] [4, 5, 6]).1[2]? = [1, 2, 3][2]? ∧
      (adl_move_swap_array 2 [1, 2, 3] [4, 5, 6]).2[2]? = [4, 5, 6][2]?) :=
  ⟨adl_move_swap_exchanges.2.1 3 [1, 2, 3] [4, 5, 6] (by decide) (by decide),
    ((adl_move_swap_exchanges.2.2 2 [1, 2, 3] [4, 5, 6] (by decide) (by decide)).2.2 1).1
      (by decide),
    ((adl_move_swap_exchanges.2.2 2 [1, 2, 3] [4, 5, 6] (by decide) (by decide)).2.2 2).2
      (by decide)⟩

/-! ## The copy loop as a strided scatter -/

theorem writeBytes_getElem?_outside (dst : List Nat) (p : Nat) (bs : List Nat) (q : Nat)
    (h : p + bs.length ≤ dst.length) (hq : q < p ∨ p + bs.length ≤ q) :
    (writeBytes dst p bs)[q]? = dst[q]? := by
  unfold writeBytes
  have hp : (dst.take p).length = p := by rw [List.length_take]; omega
  rcases hq with hq | hq
  · rw [List.append_assoc, List.getElem?_append_left (by rw [hp]; exact hq),
      List.getElem?_take_of_lt hq]
  · rw [List.getElem?_append_right (by rw [List.length_append, hp]; exact hq),
      List.length_append, hp, List.getElem?_drop]
    congr 1
    omega

theorem writeBytes_getElem?_inside (dst : List Nat) (p : Nat) (bs : List Nat) (b : Nat)
    (h : p + bs.length ≤ dst.length) (hb : b < bs.length) :
    (writeBytes dst p bs)[p + b]? = bs[b]? := by
  unfold writeBytes
  have hp : (dst.take p).length = p := by rw [List.length_take]; omega
  rw [List.append_assoc, List.getElem?_append_right (by rw [hp]; omega), hp,
    List.getElem?_append_left (by omega)]
  congr 1
  omega

/-- Byte `b` of the element of `w` bytes read at index `i`. -/
theorem element_getElem? (src : List Nat) (w i b : Nat) (hb : b < w) :
    ((src.drop (i * w)).take w)[b]? = src[i * w + b]? := by
  rw [List.getElem?_take_of_lt hb, List.getElem?_drop]

/-- Loop invariant of `copyLoop` for a stride that is at least the element
size: the `k` windows written hold the elements read, and every byte outside
them is as before. -/
theorem copyLoop_scatter (w data_stride : Nat) (src : List Nat) (hstride : w ≤ data_stride) :
    ∀ (k i p : Nat) (dst : List Nat),
      (i + k) * w ≤ src.length →
      (k = 0 ∨ p + (k - 1) * data_stride + w ≤ dst.length) →
      ∃ out, copyLoop w data_stride src k i p dst = .ok out ∧
        out.length = dst.length ∧
        (∀ j, j < k → ∀ b, b < w →
          out[p + j * data_stride + b]? = src[(i + j) * w + b]?) ∧
        (∀ q, (∀ j, j < k → ¬ (p + j * data_stride ≤ q ∧ q < p + j * data_stride + w)) →
          out[q]? = dst[q]?) := by
  intro k
  induction k with
  | zero =>
    intro i p dst _ _
    exact ⟨dst, rfl, rfl, fun j hj => absurd hj (Nat.not_lt_zero j), fun q _ => rfl⟩
  | succ k ih =>
    intro i p dst hsrc hdst
    have hroom : p + k * data_stride + w ≤ dst.length := by
      rcases hdst with h | h
      · omega
      · simpa using h
    have hread : (i + 1) * w ≤ src.length := by
      have : (i + 1) * w ≤ (i + (k + 1)) * w := Nat.mul_le_mul_right w (by omega)
      omega
    have hwrite : p + w ≤ dst.length := by
      have : 0 ≤ k * data_stride := Nat.zero_le _
      omega
    have hbs : ((src.drop (i * w)).take w).length = w := by
      rw [List.length_take, List.length_drop]
      have : (i + 1) * w = i * w + w := by ring
      omega
    have hlen : (writeBytes dst p ((src.drop (i * w)).take w)).length = dst.length :=
      writeBytes_length _ _ _ (by rw [hbs]; exact hwrite)
    obtain ⟨out, hout, houtlen, hin, hrest⟩ := ih (i + 1) (p + data_stride)
      (writeBytes dst p ((src.drop (i * w)).take w))
      (by have : i + 1 + k = i + (k + 1) := by omega
          rw [this]; exact hsrc)
      (by
        cases k with
        | zero => exact Or.inl rfl
        | succ m =>
          right
          rw [hlen]
          have : (m + 1) * data_stride = m * data_stride + data_stride := by ring
          simp only [Nat.add_sub_cancel]
          omega)
    refine ⟨out, ?_, by rw [houtlen, hlen], ?_, ?_⟩
    · unfold copyLoop
      rw [if_pos ⟨hread, hwrite⟩]
      exact hout
    · intro j hj b hb
      cases j with
      | zero =>
        have hq : out[p + b]? = (writeBytes dst p ((src.drop (i * w)).take w))[p + b]? := by
          apply hrest
          intro j' _
          have : 0 ≤ j' * data_stride := Nat.zero_le _
          omega
        simp only [Nat.zero_mul, Nat.add_zero]
        rw [hq, writeBytes_getElem?_inside _ _ _ _ (by rw [hbs]; exact hwrite)
          (by rw [hbs]; exact hb), element_getElem? _ _ _ _ hb]
      | succ j' =>
        have h1 := hin j' (by omega) b hb
        have e1 : p + (j' + 1) * data_stride + b = p + data_stride + j' * data_stride + b := by
          ring
        have e2 : (i + (j' + 1)) * w = (i + 1 + j') * w := by ring
        rw [e1, e2]
        exact h1
    · intro q hq
      have h0 := hq 0 (by omega)
      simp only [Nat.zero_mul, Nat.add_zero] at h0
      have hq' : out[q]? = (writeBytes dst p ((src.drop (i * w)).take w))[q]? := by
        apply hrest
        intro j' hj'
        have hj := hq (j' + 1) (by omega)
        have e1 : (j' + 1) * data_stride = data_stride + j' * data_stride := by ring
        rw [e1] at hj
        omega
      rw [hq']
      exact writeBytes_getElem?_outside _ _ _ _ (by rw [hbs]; exact hwrite)
        (by rw [hbs]; omega)

/-- What an accepted call copies: when the array stored under the name has at
least `data_len * numBytes` bytes of storage, the stride of the destination is
at least `numBytes` and the destination reaches to the last window, the call
returns, byte `b` of the window at `dst + i * data_stride` is the byte at
offset `i * numBytes + b` of the storage, and every byte of the destination
that lies in none of the windows is unchanged. Neither the length, the type
number nor the stride of the array plays a part. -/
theorem extractResult_copies (ndebug : Bool) (self : Invocation) (name : String)
    (arr : PyArrayObject) (dst : List Nat) (data_len data_stride : Nat)
    (dataType : dimension.Interpretation) (numBytes : Nat) (code : Int)
    (hlook : PyDict_GetItemString self.m_varsOut name = some (.ndarray arr))
    (hsup : getPythonDataType ndebug dataType numBytes = .ok code) (hne : code ≠ -1)
    (hstride : numBytes ≤ data_stride)
    (hsrc : data_len * numBytes ≤ arr.data.length)
    (hroom : data_len = 0 ∨ (data_len - 1) * data_stride + numBytes ≤ dst.length) :
    ∃ out,
      extractResult ndebug self name dst data_len data_stride dataType numBytes = .ok out ∧
      out.length = dst.length ∧
      (∀ i, i < data_len → ∀ b, b < numBytes →
        out[i * data_stride + b]? = arr.data[i * numBytes + b]?) ∧
      (∀ q,
        (∀ i, i < data_len → ¬ (i * data_stride ≤ q ∧ q < i * data_stride + numBytes)) →
        out[q]? = dst[q]?) := by
  rw [extractResult_accepted ndebug self name dst data_len data_stride dataType numBytes
    code hne hsup, hlook]
  simp only [Option.isSome_some, PyArray_Check, cassert, Bool.or_true, if_true, copyBranch]
  obtain ⟨out, hout, hlen, hin, hrest⟩ :=
    copyLoop_scatter numBytes data_stride arr.data hstride data_len 0 0 dst
      (by simpa using hsrc) (by simpa using hroom)
  refine ⟨out, hout, hlen, ?_, ?_⟩
  · intro i hi b hb
    simpa using hin i hi b hb
  · intro q hq
    apply hrest
    intro j hj
    simpa using hq j hj

/-- Where the scatter does deliver the elements of the array: for a contiguous
array, whose stride is `numBytes`, byte `b` of window `i` of the destination is
byte `b` of element `i`. -/
theorem extractResult_scatter_contiguous (ndebug : Bool) (self : Invocation)
    (name : String) (arr : PyArrayObject) (dst : List Nat) (data_len data_stride : Nat)
    (dataType : dimension.Interpretation) (numBytes : Nat) (code : Int)
    (hlook : PyDict_GetItemString self.m_varsOut name = some (.ndarray arr))
    (hsup : getPythonDataType ndebug dataType numBytes = .ok code) (hne : code ≠ -1)
    (hcontiguous : arr.strides = numBytes)
    (hstride : numBytes ≤ data_stride)
    (hsrc : data_len * numBytes ≤ arr.data.length)
    (hroom : data_len = 0 ∨ (data_len - 1) * data_stride + numBytes ≤ dst.length) :
    ∃ out,
      extractResult ndebug self name dst data_len data_stride dataType numBytes = .ok out ∧
      out.length = dst.length ∧
      (∀ i, i < data_len → ∀ b, b < numBytes →
        out[i * data_stride + b]? = (arr.element i numBytes)[b]?) ∧
      (∀ q,
        (∀ i, i < data_len → ¬ (i * data_stride ≤ q ∧ q < i * data_stride + numBytes)) →
        out[q]? = dst[q]?) := by
  obtain ⟨out, hout, hlen, hin, hrest⟩ :=
    extractResult_copies ndebug self name arr dst data_len data_stride dataType numBytes
      code hlook hsup hne hstride hsrc hroom
  refine ⟨out, hout, hlen, ?_, hrest⟩
  intro i hi b hb
  rw [hin i hi b hb, PyArrayObject.element, hcontiguous, element_getElem? _ _ _ _ hb]

/-- C11, evaluated where it fails: the array under `X` is a view of stride 2
on the storage `10, 20, 30, 40`, so that its two elements of one byte are 10
and 30. The call declares two unsigned bytes and writes them with stride 2.
Window 1 of the destination receives 20, the byte at offset `1 * numBytes` of
the storage, and not element 1 of the array, which is 30: the loop reads
`src[i]` without the stride of the array. The bytes outside the two windows
are unchanged. -/
theorem extractResult_strided_source :
    extractResult false
        ⟨true, [("X", .ndarray ⟨PyArray_UBYTE, 2, 2, [10, 20, 30, 40]⟩)]⟩
        "X" [0, 0, 0, 0] 2 2 .UnsignedByte 1 = .ok [10, 0, 20, 0] ∧
    extractResult true
        ⟨true, [("X", .ndarray ⟨PyArray_UBYTE, 2, 2, [10, 20, 30, 40]⟩)]⟩
        "X" [0, 0, 0, 0] 2 2 .UnsignedByte 1 = .ok [10, 0, 20, 0] ∧
    (PyArrayObject.mk PyArray_UBYTE 2 2 [10, 20, 30, 40]).element 0 1 = [10] ∧
    (PyArrayObject.mk PyArray_UBYTE 2 2 [10, 20, 30, 40]).element 1 1 = [30] ∧
    (([10, 0, 20, 0] : List Nat).drop (1 * 2)).take 1
      ≠ (PyArrayObject.mk PyArray_UBYTE 2 2 [10, 20, 30, 40]).element 1 1 := by
  decide

/-! ## The round trip through `insertArgument` and `extractResult` -/

theorem writeBytes_self (mem : List Nat) (p w : Nat) (h : p + w ≤ mem.length) :
    writeBytes mem p ((mem.drop p).take w) = mem := by
  have hlen : ((mem.drop p).take w).length = w := by
    rw [List.length_take, List.length_drop]; omega
  unfold writeBytes
  rw [hlen, ← List.take_add, List.take_append_drop]

/-- With a stride equal to the element size every iteration of the loop in
place stores an element onto itself. -/
theorem copyLoopInPlace_contiguous (w : Nat) :
    ∀ (k i : Nat) (mem : List Nat), (i + k) * w ≤ mem.length →
      copyLoopInPlace w w k i (i * w) mem = .ok mem := by
  intro k
  induction k with
  | zero => intro i mem _; rfl
  | succ k ih =>
    intro i mem h
    have hread : (i + 1) * w ≤ mem.length := by
      have : (i + 1) * w ≤ (i + (k + 1)) * w := Nat.mul_le_mul_right w (by omega)
      omega
    have e : (i + 1) * w = i * w + w := by ring
    have hwrite : i * w + w ≤ mem.length := by omega
    unfold copyLoopInPlace
    rw [if_pos ⟨hread, hwrite⟩, writeBytes_self mem (i * w) w hwrite, ← e]
    exact ih (i + 1) mem (by
      have : i + 1 + k = i + (k + 1) := by omega
      rw [this]; exact h)

/-- The pairs that `getPythonDataType` accepts, with their type numbers. -/
theorem getPythonDataType_accepted (ndebug : Bool) (datatype : dimension.Interpretation)
    (siz : Nat) (code : Int) (h : getPythonDataType ndebug datatype siz = .ok code)
    (hne : code ≠ -1) :
    (datatype = .SignedByte ∧ siz = 1 ∧ code = PyArray_BYTE) ∨
    (datatype = .UnsignedByte ∧ siz = 1 ∧ code = PyArray_UBYTE) ∨
    (datatype = .Float ∧ siz = 4 ∧ code = PyArray_FLOAT) ∨
    (datatype = .Float ∧ siz = 8 ∧ code = PyArray_DOUBLE) ∨
    (datatype = .SignedInteger ∧ siz = 4 ∧ code = PyArray_INT) ∨
    (datatype = .SignedInteger ∧ siz = 8 ∧ code = PyArray_LONGLONG) ∨
    (datatype = .UnsignedInteger ∧ siz = 4 ∧ code = PyArray_UINT) ∨
    (datatype = .UnsignedInteger ∧ siz = 8 ∧ code = PyArray_ULONGLONG) := by
  unfold getPythonDataType at h
  split at h
  all_goals first
    | (cases h; simp)
    | (exfalso
       cases ndebug
       · simp [cassert] at h
       · simp only [cassert, Bool.or_false, if_true] at h
         cases h
         exact hne rfl)

/-- Where the round trip does hold: for an accepted pair and a stride equal to
the element size the buffer comes back as it was. -/
theorem roundTrip_contiguous (ndebug : Bool) (name : String) (data : List Nat)
    (data_len : Nat) (dataType : dimension.Interpretation) (numBytes : Nat) (code : Int)
    (h : getPythonDataType ndebug dataType numBytes = .ok code) (hne : code ≠ -1)
    (hlen : data_len * numBytes ≤ data.length) :
    roundTrip ndebug name data data_len numBytes dataType numBytes = .ok data := by
  have hloop := copyLoopInPlace_contiguous numBytes data_len 0 data (by simpa using hlen)
  rw [Nat.zero_mul] at hloop
  rcases getPythonDataType_accepted ndebug dataType numBytes code h hne with
    hc | hc | hc | hc | hc | hc | hc | hc
  all_goals
    obtain ⟨hd, hn, hcode⟩ := hc
    subst hd hn hcode
    simp only [roundTrip, insertArgument, h, Outcome.bind, List.lookup, beq_self_eq_true,
      extractResultInPlace, Option.isSome_some, cassert, Bool.or_true, if_true,
      copyBranchInPlace]
    simpa [PyArray_BYTE, PyArray_UBYTE, PyArray_INT, PyArray_UINT, PyArray_LONGLONG,
      PyArray_ULONGLONG, PyArray_FLOAT, PyArray_DOUBLE] using hloop

/-- C12, evaluated where it fails: a buffer of two points of two bytes each,
the dimension being the first byte of each point (`data_len = 2`,
`data_stride = 2`, one unsigned byte). After the round trip the element of
point 1, at offset 2, holds the byte that was at offset 1 (20) instead of its
original value (30): the loop reads `src[i]` at offset `i * numBytes` where the
array made by `insertArgument` has its element `i` at offset `i * data_stride`.
The same happens to two four-byte integers stored with stride 6. -/
theorem roundTrip_strided :
    roundTrip false "X" [10, 20, 30, 40] 2 2 .UnsignedByte 1 = .ok [10, 20, 20, 40] ∧
    roundTrip true "X" [10, 20, 30, 40] 2 2 .UnsignedByte 1 = .ok [10, 20, 20, 40] ∧
    ([10, 20, 20, 40] : List Nat)[1 * 2]? ≠ ([10, 20, 30, 40] : List Nat)[1 * 2]? ∧
    roundTrip false "X" [1, 2, 3, 4, 5, 6, 7, 8, 9, 10, 11, 12] 2 6 .SignedInteger 4
      = .ok [1, 2, 3, 4, 5, 6, 5, 6, 7, 8, 11, 12] := by
  decide

/-! ## The width of the elements written -/

/-- The chain of tests of `extractResult` is a search through
`extractBranches`: the first branch whose type number is the one returned by
`getPythonDataType` runs its copy loop, with its own element size, and
`assert(0)` is reached when there is none. -/
theorem extractResult_eq_branches (ndebug : Bool) (self : Invocation) (name : String)
    (dst : List Nat) (data_len data_stride : Nat) (dataType : dimension.Interpretation)
    (numBytes : Nat) :
    extractResult ndebug self name dst data_len data_stride dataType numBytes
      = cassert ndebug (PyDict_GetItemString self.m_varsOut name).isSome
          (cassert ndebug (PyArray_Check (PyDict_GetItemString self.m_varsOut name))
            ((getPythonDataType ndebug dataType numBytes).bind fun pyDataType =>
              match extractBranches.find? (fun br => br.1 == pyDataType) with
              | some br =>
                copyBranch (PyDict_GetItemString self.m_varsOut name) br.2 dst
                  data_len data_stride
              | none => cassert ndebug false (.ok dst))) := by
  unfold extractResult
  simp only
  congr 3
  funext pyDataType
  by_cases h1 : pyDataType = PyArray_DOUBLE
  · subst h1; rfl
  by_cases h2 : pyDataType = PyArray_FLOAT
  · subst h2; rfl
  by_cases h3 : pyDataType = PyArray_BYTE
  · subst h3; rfl
  by_cases h4 : pyDataType = PyArray_UBYTE
  · subst h4; rfl
  by_cases h5 : pyDataType = PyArray_INT
  · subst h5; rfl
  by_cases h6 : pyDataType = PyArray_UINT
  · subst h6; rfl
  by_cases h7 : pyDataType = PyArray_LONGLONG
  · subst h7; rfl
  by_cases h8 : pyDataType = PyArray_ULONGLONG
  · subst h8; rfl
  have hfind : extractBranches.find? (fun br => br.1 == pyDataType) = none := by
    rw [List.find?_eq_none]
    intro br hbr
    simp only [extractBranches, List.mem_cons, List.mem_singleton, List.not_mem_nil,
      or_false] at hbr
    rcases hbr with rfl | rfl | rfl | rfl | rfl | rfl | rfl | rfl <;>
      simp only [beq_iff_eq] <;> intro hc <;> simp_all
  simp only [h1, h2, h3, h4, h5, h6, h7, h8, if_false, hfind]

/-- C13: the width of the elements `extractResult` writes is the declared
`numBytes`. For every pair `(dataType, numBytes)` that `getPythonDataType`
accepts, with type number `code`: exactly one branch of `extractResult` tests
for `code`, and its element type has `numBytes` bytes; the call is the two
assertions followed by the copy loop of that branch, so that the final
`assert(0)` is not reached; when the loop runs (the array has storage for
`data_len` elements and the destination reaches to the last window) with
`data_stride` at least `numBytes`, the `numBytes` bytes of window `i` are the
bytes the loop read as `src[i]` and no byte outside the windows changes, in
particular none between the end of window `i` and the start of point
`i + 1`; and no other accepted pair has the type number `code`. -/
theorem extractResult_width (ndebug : Bool) (dataType : dimension.Interpretation)
    (numBytes : Nat) (code : Int)
    (h : getPythonDataType ndebug dataType numBytes = .ok code) (hne : code ≠ -1) :
    extractBranches.filter (fun br => br.1 == code) = [(code, numBytes)] ∧
    extractBranches.find? (fun br => br.1 == code) = some (code, numBytes) ∧
    (∀ (self : Invocation) (name : String) (dst : List Nat) (data_len data_stride : Nat),
      extractResult ndebug self name dst data_len data_stride dataType numBytes
        = cassert ndebug (PyDict_GetItemString self.m_varsOut name).isSome
            (cassert ndebug (PyArray_Check (PyDict_GetItemString self.m_varsOut name))
              (copyBranch (PyDict_GetItemString self.m_varsOut name) numBytes dst
                data_len data_stride))) ∧
    (∀ (self : Invocation) (name : String) (arr : PyArrayObject) (dst : List Nat)
        (data_len data_stride : Nat),
      PyDict_GetItemString self.m_varsOut name = some (.ndarray arr) →
      numBytes ≤ data_stride →
      data_len * numBytes ≤ arr.data.length →
      (data_len = 0 ∨ (data_len - 1) * data_stride + numBytes ≤ dst.length) →
      ∃ out,
        extractResult ndebug self name dst data_len data_stride dataType numBytes
          = .ok out ∧
        out.length = dst.length ∧
        (∀ i, i < data_len → ∀ b, b < numBytes →
          out[i * data_stride + b]? = arr.data[i * numBytes + b]?) ∧
        (∀ q,
          (∀ i, i < data_len →
            ¬ (i * data_stride ≤ q ∧ q < i * data_stride + numBytes)) →
          out[q]? = dst[q]?) ∧
        (∀ i q, i < data_len → i * data_stride + numBytes ≤ q →
          q < (i + 1) * data_stride → out[q]? = dst[q]?)) ∧
    (∀ (dataType2 : dimension.Interpretation) (numBytes2 : Nat),
      getPythonDataType ndebug dataType2 numBytes2 = .ok code →
      dataType2 = dataType ∧ numBytes2 = numBytes) := by
  refine ⟨?_, ?_, ?_, ?_, ?_⟩
  · rcases getPythonDataType_accepted ndebug dataType numBytes code h hne with
      hc | hc | hc | hc | hc | hc | hc | hc
    all_goals
      obtain ⟨_, hn, hcode⟩ := hc
      subst hn hcode
      decide
  · rcases getPythonDataType_accepted ndebug dataType numBytes code h hne with
      hc | hc | hc | hc | hc | hc | hc | hc
    all_goals
      obtain ⟨_, hn, hcode⟩ := hc
      subst hn hcode
      decide
  · intro self name dst data_len data_stride
    exact extractResult_accepted ndebug self name dst data_len data_stride dataType
      numBytes code hne h
  · intro self name arr dst data_len data_stride hlook hstride hsrc hroom
    obtain ⟨out, hout, hlen, hin, hrest⟩ :=
      extractResult_copies ndebug self name arr dst data_len data_stride dataType numBytes
        code hlook h hne hstride hsrc hroom
    refine ⟨out, hout, hlen, hin, hrest, ?_⟩
    intro i q _ hlo hhi
    apply hrest
    intro j _ hwin
    rcases Nat.lt_or_ge i j with hij | hij
    · have hmul : (i + 1) * data_stride ≤ j * data_stride :=
        Nat.mul_le_mul_right data_stride hij
      omega
    · have hmul : j * data_stride ≤ i * data_stride := Nat.mul_le_mul_right data_stride hij
      omega
  · intro dataType2 numBytes2 h2
    have h2acc := getPythonDataType_accepted ndebug dataType2 numBytes2 code h2 hne
    rcases getPythonDataType_accepted ndebug dataType numBytes code h hne with
      hc | hc | hc | hc | hc | hc | hc | hc
    all_goals
      obtain ⟨hd, hn, hcode⟩ := hc
      subst hd hn hcode
      rcases h2acc with h2c | h2c | h2c | h2c | h2c | h2c | h2c | h2c
      all_goals
        obtain ⟨hd2, hn2, hcode2⟩ := h2c
        first
          | exact ⟨hd2, hn2⟩
          | exact absurd hcode2 (by decide)

/-- Witness of C13: an eight-byte float is given `NPY_DOUBLE`, which the first
branch copies as `double`; two such elements are written with stride 10 into a
destination of twenty bytes. -/
theorem extractResult_width_witness :
    (extractBranches.filter (fun br => br.1 == PyArray_DOUBLE) = [(PyArray_DOUBLE, 8)] ∧
      extractBranches.find? (fun br => br.1 == PyArray_DOUBLE) = some (PyArray_DOUBLE, 8)) ∧
    (∃ out,
      extractResult false
          ⟨true, [("X", .ndarray ⟨PyArray_DOUBLE, 2, 8,
            [1, 2, 3, 4, 5, 6, 7, 8, 9, 10, 11, 12, 13, 14, 15, 16]⟩)]⟩
          "X" [50, 51, 52, 53, 54, 55, 56, 57, 58, 59, 60, 61, 62, 63, 64, 65, 66, 67, 68, 69]
          2 10 .Float 8 = .ok out ∧
      out.length
        = [50, 51, 52, 53, 54, 55, 56, 57, 58, 59, 60, 61, 62, 63, 64, 65, 66, 67, 68,
            69].length ∧
      (∀ i, i < 2 → ∀ b, b < 8 →
        out[i * 10 + b]?
          = (PyArrayObject.mk PyArray_DOUBLE 2 8
              [1, 2, 3, 4, 5, 6, 7, 8, 9, 10, 11, 12, 13, 14, 15, 16]).data[i * 8 + b]?) ∧
      (∀ q,
        (∀ i, i < 2 → ¬ (i * 10 ≤ q ∧ q < i * 10 + 8)) →
        out[q]?
          = [50, 51, 52, 53, 54, 55, 56, 57, 58, 59, 60, 61, 62, 63, 64, 65, 66, 67, 68,
              69][q]?) ∧
      (∀ i q, i < 2 → i * 10 + 8 ≤ q → q < (i + 1) * 10 →
        out[q]?
          = [50, 51, 52, 53, 54, 55, 56, 57, 58, 59, 60, 61, 62, 63, 64, 65, 66, 67, 68,
              69][q]?)) ∧
    (∀ (dataType2 : dimension.Interpretation) (numBytes2 : Nat),
      getPythonDataType false dataType2 numBytes2 = .ok PyArray_DOUBLE →
      dataType2 = .Float ∧ numBytes2 = 8) :=
  ⟨⟨(extractResult_width false .Float 8 PyArray_DOUBLE (by decide) (by decide)).1,
      (extractResult_width false .Float 8 PyArray_DOUBLE (by decide) (by decide)).2.1⟩,
    (extractResult_width false .Float 8 PyArray_DOUBLE (by decide) (by decide)).2.2.2.1
      ⟨true, [("X", .ndarray ⟨PyArray_DOUBLE, 2, 8,
        [1, 2, 3, 4, 5, 6, 7, 8, 9, 10, 11, 12, 13, 14, 15, 16]⟩)]⟩
      "X" ⟨PyArray_DOUBLE, 2, 8, [1, 2, 3, 4, 5, 6, 7, 8, 9, 10, 11, 12, 13, 14, 15, 16]⟩
      [50, 51, 52, 53, 54, 55, 56, 57, 58, 59, 60, 61, 62, 63, 64, 65, 66, 67, 68, 69]
      2 10 (by decide) (by decide) (by decide) (by decide),
    (extractResult_width false .Float 8 PyArray_DOUBLE (by decide) (by decide)).2.2.2.2⟩

end PDAL
